import Mathlib

/-!
Verification of the Meta-backend media/conversation control plane.

Strings from the JavaScript source are modelled as `List Char`.  Each
definition below is a direct shallow embedding of a function of the
repository; the file then proves or refutes the frozen claims about it.
-/

namespace MetaBackend

/-- Sentence-terminating characters used by `splitTextIntoChunks`
(the regex `[.!?]+` in `src/unnamed/part_002`). -/
def isTerm (c : Char) : Bool :=
  c = '.' || c = '!' || c = '?'

/-- Whitespace as removed by JavaScript `String.prototype.trim` and
matched by `\s` (ASCII part; the Unicode space classes behave
identically for every theorem below). -/
def isWs (c : Char) : Bool :=
  c = ' ' || c = '\t' || c = '\n' || c = '\r' || c = '\x0b' || c = '\x0c'

/-- JavaScript `s.trim()`: drop leading and trailing whitespace. -/
def trim (l : List Char) : List Char :=
  ((l.dropWhile isWs).reverse.dropWhile isWs).reverse

/-- JavaScript `text.split(/[.!?]+/)`: split on maximal runs of
sentence terminators.  Always returns at least one piece. -/
def splitTerm : List Char → List (List Char)
  | [] => [[]]
  | c :: cs =>
    if isTerm c then
      match cs with
      | [] => [[], []]
      | c2 :: _ => if isTerm c2 then splitTerm cs else [] :: splitTerm cs
    else
      match splitTerm cs with
      | [] => [[c]]
      | p :: ps => (c :: p) :: ps

/-- JavaScript `s.split(" ")`: split on every single space character. -/
def splitSpace : List Char → List (List Char)
  | [] => [[]]
  | c :: cs =>
    if c = ' ' then [] :: splitSpace cs
    else
      match splitSpace cs with
      | [] => [[c]]
      | p :: ps => (c :: p) :: ps

/-- `estimateTokenCount` from `src/unnamed/part_002`:
`Math.ceil(text.length / 3)`. -/
def estimateTokenCount (text : List Char) : Nat :=
  (text.length + 2) / 3

/-- One step of the inner word-packing loop of `splitTextIntoChunks`
(`for (const word of words)` in `src/unnamed/part_002`).  State is
`(chunks, wordChunk)`. -/
def wordStep (maxChars : Nat) (st : List (List Char) × List Char)
    (word : List Char) : List (List Char) × List Char :=
  let potential := if st.2.isEmpty then word else st.2 ++ ' ' :: word
  if potential.length ≤ maxChars then (st.1, potential)
  else ((if st.2.isEmpty then st.1 else st.1 ++ [st.2]), word)

/-- One step of the outer sentence-packing loop of
`splitTextIntoChunks` (`for (const sentence of sentences)`).  State is
`(chunks, currentChunk)`. -/
def sentenceStep (maxChars : Nat) (st : List (List Char) × List Char)
    (sentence : List Char) : List (List Char) × List Char :=
  let trimmed := trim sentence
  let potential := if st.2.isEmpty then trimmed else st.2 ++ '.' :: ' ' :: trimmed
  if potential.length ≤ maxChars then (st.1, potential)
  else
    let chunks1 := if st.2.isEmpty then st.1 else st.1 ++ [st.2 ++ ['.']]
    if maxChars < trimmed.length then
      let ws := (splitSpace trimmed).foldl (wordStep maxChars) (chunks1, [])
      (ws.1, if ws.2.isEmpty then st.2 else ws.2)
    else (chunks1, trimmed)

/-- `splitTextIntoChunks` from `src/unnamed/part_002`: split text on
sentence boundaries, greedily pack sentences (and, for oversized
sentences, words) into chunks of at most `3 * maxTokens` characters,
append a period to every sentence-level chunk, and drop blank chunks. -/
def splitTextIntoChunks (text : List Char) (maxTokens : Nat := 200) :
    List (List Char) :=
  let maxChars := maxTokens * 3
  let sentences := (splitTerm text).filter (fun s => !(trim s).isEmpty)
  let st := sentences.foldl (sentenceStep maxChars) ([], [])
  let chunks := if st.2.isEmpty then st.1 else st.1 ++ [st.2 ++ ['.']]
  chunks.filter (fun c => !(trim c).isEmpty)

/-- Characters that are neither whitespace nor sentence terminators:
the text content the chunker must carry through unchanged. -/
def keepCore (c : Char) : Bool :=
  !(isWs c) && !(isTerm c)

/-- The core of a string: its subsequence of non-whitespace,
non-terminator characters. -/
def core (l : List Char) : List Char :=
  l.filter keepCore

/-- Modelled from the spec (the concatenation invariant of C4):
equality up to sentence/word-boundary whitespace normalization — no
characters other than whitespace are added, removed or changed, i.e.
the subsequences of non-whitespace characters coincide. -/
def wsAgnosticEq (a b : List Char) : Prop :=
  a.filter (fun c => !(isWs c)) = b.filter (fun c => !(isWs c))

/-- Outcome of the `generateAudio` request handler's validation pipeline
in `src/unnamed/part_002`.  `rejected s` means the handler returned HTTP
status `s` before reaching the database insert, so no job row exists;
`accepted` means every guard passed and the handler proceeds to create
the `generated_audios` row and enqueue the task. -/
inductive AudioGenOutcome where
  | rejected (status : Nat)
  | accepted
  deriving DecidableEq, Repr

/-- Whether a `generated_audios` row is created for the request: only the
accepted path reaches the insert. -/
def AudioGenOutcome.createsJobRow : AudioGenOutcome → Bool
  | .rejected _ => false
  | .accepted => true

/-- The validation pipeline of `generateAudio` (`src/unnamed/part_002`,
lines 183-294), in source order: missing or blank text → 400, missing
voice id → 400, missing user → 401, over the monthly limit → 403,
trimmed text longer than 1000 characters → 400, otherwise the record is
inserted.  `text = none` models an absent body field. -/
def generateAudioDecision (text : Option (List Char))
    (voiceIdPresent userPresent withinLimit : Bool) : AudioGenOutcome :=
  match text with
  | none => .rejected 400
  | some t =>
    if t.isEmpty || (trim t).isEmpty then .rejected 400
    else if !voiceIdPresent then .rejected 400
    else if !userPresent then .rejected 401
    else if !withinLimit then .rejected 403
    else if 1000 < (trim t).length then .rejected 400
    else .accepted

/-! ## Voice-service authentication token

`crypto.createHmac("sha256", secret).update(s).digest("hex")` is Node
standard-library code, external to this repository; it is abstracted as
a parameter `hmacHex : List Char → List Char` mapping the signed string
to its lowercase-hex digest.  Everything around it — the decimal
timestamp, the `<hex>.<timestamp>` payload, UTF-8 encoding,
base64url encoding and the literal prefix — is embedded from the
repository's code. -/

/-- Decimal representation of a natural number, as JavaScript template
interpolation of an integer produces. -/
def natDecimal (n : Nat) : List Char :=
  Nat.toDigits 10 n

/-- UTF-8 encoding of one character (what `Buffer.from(string)` uses). -/
def utf8Char (c : Char) : List Nat :=
  let n := c.toNat
  if n < 0x80 then [n]
  else if n < 0x800 then [0xC0 + n / 0x40, 0x80 + n % 0x40]
  else if n < 0x10000 then
    [0xE0 + n / 0x1000, 0x80 + (n / 0x40) % 0x40, 0x80 + n % 0x40]
  else
    [0xF0 + n / 0x40000, 0x80 + (n / 0x1000) % 0x40,
     0x80 + (n / 0x40) % 0x40, 0x80 + n % 0x40]

/-- UTF-8 encoding of a string. -/
def utf8 (l : List Char) : List Nat :=
  (l.map utf8Char).flatten

/-- The base64url alphabet character for a 6-bit value:
`A-Z`, `a-z`, `0-9`, `-`, `_`. -/
def base64UrlDigit (n : Nat) : Char :=
  if n < 26 then Char.ofNat ('A'.toNat + n)
  else if n < 52 then Char.ofNat ('a'.toNat + (n - 26))
  else if n < 62 then Char.ofNat ('0'.toNat + (n - 52))
  else if n = 62 then '-'
  else '_'

/-- Unpadded base64url encoding of a byte sequence, as produced by
Node's `Buffer.prototype.toString("base64url")`. -/
def base64Url : List Nat → List Char
  | b1 :: b2 :: b3 :: rest =>
    base64UrlDigit (b1 / 4) ::
    base64UrlDigit ((b1 % 4) * 16 + b2 / 16) ::
    base64UrlDigit ((b2 % 16) * 4 + b3 / 64) ::
    base64UrlDigit (b3 % 64) :: base64Url rest
  | [b1, b2] =>
    [base64UrlDigit (b1 / 4), base64UrlDigit ((b1 % 4) * 16 + b2 / 16),
     base64UrlDigit ((b2 % 16) * 4)]
  | [b1] =>
    [base64UrlDigit (b1 / 4), base64UrlDigit ((b1 % 4) * 16)]
  | [] => []

/-- `generateVoiceServiceToken` from
`src/controllers/audioGenerationController.js` (lines 8-21):
sign the decimal unix timestamp, build `<hex>.<timestamp>`,
base64url-encode its bytes, and prepend `VOICE_CLONE_AUTH-`. -/
def voiceTokenAudioController (hmacHex : List Char → List Char)
    (timestamp : Nat) : List Char :=
  let stringToSign := natDecimal timestamp
  let signature := hmacHex stringToSign
  let payload := signature ++ '.' :: natDecimal timestamp
  "VOICE_CLONE_AUTH-".data ++ base64Url (utf8 payload)

/-- `generateVoiceServiceToken` from `src/unnamed/part_002`
(lines 22-33). -/
def voiceTokenAudioQueue (hmacHex : List Char → List Char)
    (timestamp : Nat) : List Char :=
  let stringToSign := natDecimal timestamp
  let signature := hmacHex stringToSign
  let payload := signature ++ '.' :: natDecimal timestamp
  "VOICE_CLONE_AUTH-".data ++ base64Url (utf8 payload)

/-- Token construction inline in `handleVideoChat`
(`src/ws/videoChatHandler.js`, lines 268-273). -/
def voiceTokenVideoChat (hmacHex : List Char → List Char)
    (timestamp : Nat) : List Char :=
  let stringToSign := natDecimal timestamp
  let signature := hmacHex stringToSign
  let payload := signature ++ '.' :: natDecimal timestamp
  "VOICE_CLONE_AUTH-".data ++ base64Url (utf8 payload)

/-- Token construction inline in `handleRealtimeVoiceChat`
(`src/unnamed/part_013`, lines 73-81). -/
def voiceTokenVoiceChat (hmacHex : List Char → List Char)
    (timestamp : Nat) : List Char :=
  let stringToSign := natDecimal timestamp
  let signature := hmacHex stringToSign
  let payload := signature ++ '.' :: natDecimal timestamp
  "VOICE_CLONE_AUTH-".data ++ base64Url (utf8 payload)

/-- Token construction inline in the alternate `handleVideoChat`
(`src/unnamed/part_013`, lines 329-331). -/
def voiceTokenVideoChatAlt (hmacHex : List Char → List Char)
    (timestamp : Nat) : List Char :=
  let signature := hmacHex (natDecimal timestamp)
  "VOICE_CLONE_AUTH-".data ++
    base64Url (utf8 (signature ++ '.' :: natDecimal timestamp))

/-- Modelled from the spec (section 4.1): the token is the literal
prefix `VOICE_CLONE_AUTH-` followed by the base64url encoding of
`<hex>.<unix_seconds>` where `<hex>` is the hex HMAC digest of the
decimal unix-seconds string. -/
def specVoiceToken (hmacHex : List Char → List Char)
    (timestamp : Nat) : List Char :=
  "VOICE_CLONE_AUTH-".data ++
    base64Url (utf8 (hmacHex (natDecimal timestamp) ++
      '.' :: natDecimal timestamp))

/-! ## Video-chat session readiness -/

/-- Upstream events that can reach a video-chat session: the video
WebSocket opening or delivering a frame, and the voice WebSocket's
typed JSON messages or raw audio. -/
inductive VCEvent where
  | videoOpen
  | videoFrame
  | voiceReady
  | voiceError
  | voiceSpeechStart
  | voiceSpeechEnd
  | voiceAudio
  deriving DecidableEq, Repr

/-- Readiness-relevant state of `handleVideoChat` in
`src/ws/videoChatHandler.js`: the `isFullyConnected` flag and how many
client-facing `ready` frames have been sent. -/
structure VCReadyState1 where
  isFullyConnected : Bool
  readyFramesSent : Nat
  deriving DecidableEq, Repr

/-- Event dispatch of `handleVideoChat` in `src/ws/videoChatHandler.js`
restricted to the readiness logic: the voice upstream's `ready` message
(lines 295-321) sets `isFullyConnected` and sends the `ready` frame to
the client; no other upstream event touches readiness. -/
def vcStep1 (st : VCReadyState1) : VCEvent → VCReadyState1
  | .voiceReady =>
    { isFullyConnected := true, readyFramesSent := st.readyFramesSent + 1 }
  | _ => st

/-- Run the `src/ws/videoChatHandler.js` readiness machine from its
initial state over a sequence of upstream events. -/
def vcRun1 (evs : List VCEvent) : VCReadyState1 :=
  evs.foldl vcStep1 ⟨false, 0⟩

/-- Readiness-relevant state of the alternate `handleVideoChat` in
`src/unnamed/part_013` (lines 227-445): the `isVideoReady`,
`isVoiceReady` and `isFullyConnected` flags plus the count of `ready`
frames sent to the client. -/
structure VCReadyState2 where
  isVideoReady : Bool
  isVoiceReady : Bool
  isFullyConnected : Bool
  readyFramesSent : Nat
  deriving DecidableEq, Repr

/-- `checkFullConnection` from `src/unnamed/part_013` (lines 271-283):
only when both readiness flags are set and the session is not yet fully
connected does it mark the session connected and send the `ready`
frame. -/
def checkFullConnection (st : VCReadyState2) : VCReadyState2 :=
  if st.isVideoReady && st.isVoiceReady && !st.isFullyConnected then
    { st with isFullyConnected := true,
              readyFramesSent := st.readyFramesSent + 1 }
  else st

/-- Event dispatch of the alternate `handleVideoChat`
(`src/unnamed/part_013`): the video WebSocket's `onopen` sets
`isVideoReady`, the voice upstream's `ready` message sets
`isVoiceReady`, and each calls `checkFullConnection`. -/
def vcStep2 (st : VCReadyState2) : VCEvent → VCReadyState2
  | .videoOpen => checkFullConnection { st with isVideoReady := true }
  | .voiceReady => checkFullConnection { st with isVoiceReady := true }
  | _ => st

/-- Run the `src/unnamed/part_013` readiness machine from its initial
state over a sequence of upstream events. -/
def vcRun2 (evs : List VCEvent) : VCReadyState2 :=
  evs.foldl vcStep2 ⟨false, false, false, 0⟩

/-! ## Video-chat close handler -/

/-- Side effects performed by the client-close handler of a video-chat
session. -/
inductive CloseEffect where
  | conversationEnded
  | chatHistorySaved
  | usageCommit (minutes : ℚ)
  | endStreamCalled
  | voiceSocketClosed
  | videoSocketClosed
  deriving DecidableEq, Repr

/-- Whether a close effect is the conversation-minutes usage commit. -/
def CloseEffect.isUsageCommit : CloseEffect → Bool
  | .usageCommit _ => true
  | _ => false

/-- The `ws.on("close")` handler of `src/ws/videoChatHandler.js`
(lines 456-548), as the ordered list of effects it performs for one
close event: update the conversation row, save chat history when there
are messages, commit conversation minutes when the wall-clock duration
is positive (`if (durationMinutes > 0)`), call `end-stream`, and close
both upstream sockets when open. -/
def closeHandlerEffects1 (durationMinutes : ℚ)
    (conversationIdPresent : Bool) (messageCount : Nat)
    (videoServiceConfigured voiceWsOpen videoWsOpen : Bool) :
    List CloseEffect :=
  (if conversationIdPresent then
    [CloseEffect.conversationEnded] ++
      (if 0 < messageCount then [CloseEffect.chatHistorySaved] else [])
   else []) ++
  (if 0 < durationMinutes then [CloseEffect.usageCommit durationMinutes]
   else []) ++
  (if videoServiceConfigured then [CloseEffect.endStreamCalled] else []) ++
  (if voiceWsOpen then [CloseEffect.voiceSocketClosed] else []) ++
  (if videoWsOpen then [CloseEffect.videoSocketClosed] else [])

/-- The `ws.on("close")` handler of the alternate `handleVideoChat` in
`src/unnamed/part_013` (lines 417-439): close both upstream sockets,
call `end-stream`, and commit conversation minutes only when the
wall-clock duration exceeds 0.1 minutes
(`if (durationMinutes > 0.1)`). -/
def closeHandlerEffects2 (durationMinutes : ℚ)
    (voiceWsPresent videoWsPresent : Bool) : List CloseEffect :=
  (if voiceWsPresent then [CloseEffect.voiceSocketClosed] else []) ++
  (if videoWsPresent then [CloseEffect.videoSocketClosed] else []) ++
  [CloseEffect.endStreamCalled] ++
  (if 1/10 < durationMinutes then [CloseEffect.usageCommit durationMinutes]
   else [])

/-! ## Worker-callback authentication -/

/-- Result of the `verifyWorkerToken` middleware: pass the request to
the next handler, or respond with a status code and an optional JSON
body (`some` fields being the `success`/`message` pair). -/
inductive WorkerAuthResult where
  | nextHandler
  | respond (status : Nat) (body : Option (Bool × List Char))
  deriving DecidableEq, Repr

/-- `verifyWorkerToken` from `src/middleware/apiKeyAuth.js`
(lines 81-100): with no configured token respond 500; accept
`Authorization: Bearer <token>` or `x-worker-token: <token>` matching
the configured `WORKER_CALLBACK_TOKEN`; otherwise respond 401 with the
JSON body `{success: false, message: "Unauthorized worker"}`. -/
def verifyWorkerToken (expected : Option (List Char))
    (authHeader xWorkerToken : Option (List Char)) : WorkerAuthResult :=
  match expected with
  | none => .respond 500 (some (false, "Server misconfigured".data))
  | some tok =>
    let bearerOk :=
      match authHeader with
      | some h => !h.isEmpty && "Bearer ".data.isPrefixOf h && h.drop 7 == tok
      | none => false
    if bearerOk then .nextHandler
    else
      match xWorkerToken with
      | some x => if !x.isEmpty && x == tok then .nextHandler
                  else .respond 401 (some (false, "Unauthorized worker".data))
      | none => .respond 401 (some (false, "Unauthorized worker".data))

/-! ## Video-completion polling -/

/-- One poll response from the video service as observed by
`_pollVideoCompletion`: an `mp4` body (with its byte length and whether
the storage upload and database update succeed), a JSON status body
(`failed` or still processing), a 404, another HTTP error, or a thrown
network error. -/
inductive PollResp where
  | mp4 (byteLen : Nat) (uploadOk : Bool)
  | jsonStatus (failed : Bool)
  | notFound
  | httpError
  | netError
  deriving DecidableEq, Repr

/-- `Math.max(0.5, (prompt?.length || 60) * 0.01)` from
`src/controllers/videoGenerationController.js` line 1057: the committed
video-minutes amount.  JavaScript `prompt?.length || 60` yields 60 both
when the prompt is absent and when it is the empty string. -/
def pollCommitAmount (prompt : Option (List Char)) : ℚ :=
  let len : ℚ :=
    match prompt with
    | none => 60
    | some t => if t.length = 0 then 60 else t.length
  max (1/2) (len * (1/100))

/-- Modelled from the spec (section 4.8 step 5):
`estimated_duration = max(0.5, len(text or "") * 0.01)`, so an absent
prompt counts as length 0. -/
def specVideoCommitAmount (prompt : Option (List Char)) : ℚ :=
  let len : ℚ :=
    match prompt with
    | none => 0
    | some t => t.length
  max (1/2) (len * (1/100))

/-- The polling loop of `_pollVideoCompletion`
(`src/controllers/videoGenerationController.js`, lines 1006-1095):
`while (attempts < maxAttempts && !videoCompleted)`, one status fetch
per iteration with `attempts++` first.  A non-empty `mp4` body whose
upload and record update succeed completes the job and commits
`pollCommitAmount prompt`; every other response (empty body, JSON
status, 404, HTTP error, thrown error — the latter caught inside the
loop) leaves the loop running.  Returns
`(attempts, completed, committed amount)`. -/
def pollLoop (env : Nat → PollResp) (prompt : Option (List Char)) :
    Nat → Nat → Nat × Bool × Option ℚ
  | attempts, 0 => (attempts, false, none)
  | attempts, fuel + 1 =>
    let a := attempts + 1
    match env attempts with
    | .mp4 byteLen uploadOk =>
      if byteLen = 0 then pollLoop env prompt a fuel
      else if uploadOk then (a, true, some (pollCommitAmount prompt))
      else pollLoop env prompt a fuel
    | _ => pollLoop env prompt a fuel

/-- Result of one `_pollVideoCompletion` run. -/
structure PollResult where
  attemptsUsed : Nat
  completed : Bool
  timedOutMarked : Bool
  committed : Option ℚ
  deriving Repr

/-- `_pollVideoCompletion` from
`src/controllers/videoGenerationController.js` (lines 1006-1095):
`maxAttempts = quality === "high" ? 240 : 120`; after the loop, a run
that did not complete marks the job row failed with
"Video generation timed out". -/
def pollVideoCompletion (env : Nat → PollResp) (quality : List Char)
    (prompt : Option (List Char)) : PollResult :=
  let maxAttempts := if quality = "high".data then 240 else 120
  let r := pollLoop env prompt 0 maxAttempts
  { attemptsUsed := r.1, completed := r.2.1,
    timedOutMarked := !r.2.1, committed := r.2.2 }

end MetaBackend

namespace MetaBackend

/- Quick sanity examples for the chunker embedding. -/

example : splitTerm "a..b".data = ["a".data, "b".data] := by decide

example : splitTextIntoChunks "Hello! World?".data 200 =
    ["Hello. World.".data] := by decide

example : splitTextIntoChunks "...".data 200 = [] := by decide

/-! ## Helper lemmas -/

theorem pollLoop_attempts_le (env : Nat → PollResp) (p : Option (List Char)) :
    ∀ fuel a, (pollLoop env p a fuel).1 ≤ a + fuel := by
  intro fuel
  induction fuel with
  | zero => intro a; simp [pollLoop]
  | succ n ih =>
    intro a
    have hrec : (pollLoop env p (a + 1) n).1 ≤ a + (n + 1) :=
      le_trans (ih (a + 1)) (by omega)
    cases h : env a with
    | mp4 byteLen uploadOk =>
      by_cases h0 : byteLen = 0
      · simp only [pollLoop, h, h0, if_pos rfl]
        simpa using hrec
      · by_cases hu : uploadOk
        · simp only [pollLoop, h, h0, hu, if_neg h0, if_pos rfl]
          simp
        · simp only [pollLoop, h]
          rw [if_neg h0, if_neg (by simpa using hu)]
          exact hrec
    | jsonStatus failed => simpa only [pollLoop, h] using hrec
    | notFound => simpa only [pollLoop, h] using hrec
    | httpError => simpa only [pollLoop, h] using hrec
    | netError => simpa only [pollLoop, h] using hrec

theorem pollLoop_committed_eq (env : Nat → PollResp) (p : Option (List Char)) :
    ∀ fuel a, (pollLoop env p a fuel).2.2 =
      if (pollLoop env p a fuel).2.1 then some (pollCommitAmount p) else none := by
  intro fuel
  induction fuel with
  | zero => intro a; simp [pollLoop]
  | succ n ih =>
    intro a
    cases h : env a with
    | mp4 byteLen uploadOk =>
      by_cases h0 : byteLen = 0
      · simp only [pollLoop, h, if_pos h0]
        exact ih (a + 1)
      · by_cases hu : uploadOk
        · simp only [pollLoop, h, if_neg h0, hu, if_pos rfl]
          simp
        · simp only [pollLoop, h]
          rw [if_neg h0, if_neg (by simpa using hu)]
          exact ih (a + 1)
    | jsonStatus failed => simpa only [pollLoop, h] using ih (a + 1)
    | notFound => simpa only [pollLoop, h] using ih (a + 1)
    | httpError => simpa only [pollLoop, h] using ih (a + 1)
    | netError => simpa only [pollLoop, h] using ih (a + 1)

theorem vcFold1_ready (evs : List VCEvent) :
    ∀ st : VCReadyState1,
      (0 < (evs.foldl vcStep1 st).readyFramesSent ↔
        0 < st.readyFramesSent ∨ VCEvent.voiceReady ∈ evs) := by
  induction evs with
  | nil => intro st; simp
  | cons e evs ih =>
    intro st
    rw [List.foldl_cons]
    cases e with
    | voiceReady =>
      rw [ih]
      simp [vcStep1]
    | videoOpen => rw [ih]; simp [vcStep1]
    | videoFrame => rw [ih]; simp [vcStep1]
    | voiceError => rw [ih]; simp [vcStep1]
    | voiceSpeechStart => rw [ih]; simp [vcStep1]
    | voiceSpeechEnd => rw [ih]; simp [vcStep1]
    | voiceAudio => rw [ih]; simp [vcStep1]

/-- Invariant of the dual-flag readiness machine: the session is fully
connected exactly when both flags are set, and the ready frame has been
sent exactly when the session is fully connected. -/
def VCInv2 (st : VCReadyState2) : Prop :=
  st.isFullyConnected = (st.isVideoReady && st.isVoiceReady) ∧
  (0 < st.readyFramesSent ↔ st.isFullyConnected = true)

theorem vcStep2_spec (st : VCReadyState2) (e : VCEvent) (h : VCInv2 st) :
    VCInv2 (vcStep2 st e) ∧
    ((vcStep2 st e).isVideoReady = true ↔
      st.isVideoReady = true ∨ e = VCEvent.videoOpen) ∧
    ((vcStep2 st e).isVoiceReady = true ↔
      st.isVoiceReady = true ∨ e = VCEvent.voiceReady) := by
  obtain ⟨vid, voi, fc, n⟩ := st
  obtain ⟨h1, h2⟩ := h
  simp only at h1 h2
  subst h1
  cases e <;> cases vid <;> cases voi <;>
    simp_all [vcStep2, checkFullConnection, VCInv2]

theorem vcFold2_ready (evs : List VCEvent) :
    ∀ st : VCReadyState2, VCInv2 st →
      VCInv2 (evs.foldl vcStep2 st) ∧
      ((evs.foldl vcStep2 st).isVideoReady = true ↔
        st.isVideoReady = true ∨ VCEvent.videoOpen ∈ evs) ∧
      ((evs.foldl vcStep2 st).isVoiceReady = true ↔
        st.isVoiceReady = true ∨ VCEvent.voiceReady ∈ evs) := by
  induction evs with
  | nil => intro st h; exact ⟨h, by simp, by simp⟩
  | cons e evs ih =>
    intro st h
    obtain ⟨hs, hv, hw⟩ := vcStep2_spec st e h
    obtain ⟨ha, hb, hc⟩ := ih (vcStep2 st e) hs
    rw [List.foldl_cons]
    refine ⟨ha, ?_, ?_⟩
    · rw [hb, hv, List.mem_cons]
      constructor
      · rintro ((h' | h') | h')
        · exact Or.inl h'
        · exact Or.inr (Or.inl h'.symm)
        · exact Or.inr (Or.inr h')
      · rintro (h' | (h' | h'))
        · exact Or.inl (Or.inl h')
        · exact Or.inl (Or.inr h'.symm)
        · exact Or.inr h'
    · rw [hc, hw, List.mem_cons]
      constructor
      · rintro ((h' | h') | h')
        · exact Or.inl h'
        · exact Or.inr (Or.inl h'.symm)
        · exact Or.inr (Or.inr h')
      · rintro (h' | (h' | h'))
        · exact Or.inl (Or.inl h')
        · exact Or.inl (Or.inr h'.symm)
        · exact Or.inr h'

theorem countCommit1 (d : ℚ) (cid : Bool) (mc : Nat) (vsc vo vd : Bool) :
    (closeHandlerEffects1 d cid mc vsc vo vd).countP CloseEffect.isUsageCommit =
      if 0 < d then 1 else 0 := by
  simp [closeHandlerEffects1, List.countP_append,
    apply_ite (List.countP CloseEffect.isUsageCommit), List.countP_cons,
    List.countP_nil, CloseEffect.isUsageCommit]

theorem countCommit2 (d : ℚ) (vp wp : Bool) :
    (closeHandlerEffects2 d vp wp).countP CloseEffect.isUsageCommit =
      if 1/10 < d then 1 else 0 := by
  simp [closeHandlerEffects2, List.countP_append,
    apply_ite (List.countP CloseEffect.isUsageCommit), List.countP_cons,
    List.countP_nil, CloseEffect.isUsageCommit]

/-! ## Claims -/

/-- C2 (counterexample): in `src/ws/videoChatHandler.js`, a session in
which the voice upstream signals ready and the video upstream never
does still receives the client-facing `ready` frame, refuting the claim
that the voice upstream's ready alone never triggers it. -/
theorem videoChatReady_counterexample :
    (vcRun1 [VCEvent.voiceReady]).readyFramesSent = 1 ∧
    VCEvent.videoOpen ∉ [VCEvent.voiceReady] ∧
    VCEvent.videoFrame ∉ [VCEvent.voiceReady] := by
  refine ⟨rfl, ?_, ?_⟩ <;> simp

/-- C2 (amended): in `src/ws/videoChatHandler.js` the client-facing
`ready` frame is sent exactly when the voice upstream has signalled
ready, with video readiness never consulted; the BOTH-ready gating
holds only in the alternate handler of `src/unnamed/part_013`, where
the `ready` frame is sent exactly when both the video WebSocket has
opened and the voice upstream has signalled ready. -/
theorem videoChatReady_amended (evs : List VCEvent) :
    (0 < (vcRun1 evs).readyFramesSent ↔ VCEvent.voiceReady ∈ evs) ∧
    (0 < (vcRun2 evs).readyFramesSent ↔
      (VCEvent.videoOpen ∈ evs ∧ VCEvent.voiceReady ∈ evs)) := by
  constructor
  · rw [vcRun1, vcFold1_ready]
    simp
  · have h0 : VCInv2 ⟨false, false, false, 0⟩ := by
      constructor <;> simp
    obtain ⟨⟨h1, h2⟩, hb, hc⟩ := vcFold2_ready evs ⟨false, false, false, 0⟩ h0
    rw [vcRun2]
    rw [h2, h1, Bool.and_eq_true, hb, hc]
    simp

/-- C3 (counterexample): a video-chat session of 0.05 wall-clock
minutes: the close handler of `src/ws/videoChatHandler.js` commits
conversation minutes although the duration does not exceed 0.1
minutes. -/
theorem conversationCommit_counterexample :
    (closeHandlerEffects1 (1/20) true 0 true true true).countP
      CloseEffect.isUsageCommit = 1 ∧
    ¬ ((1 : ℚ)/10 < 1/20) := by
  constructor
  · rw [countCommit1]
    norm_num
  · norm_num

/-- C3 (amended): on client disconnect the conversation-minutes commit
is performed at most once; in `src/ws/videoChatHandler.js` it is
performed exactly when the wall-clock duration is positive
(`durationMinutes > 0`), while the alternate handler of
`src/unnamed/part_013` commits exactly when the duration exceeds 0.1
minutes. -/
theorem conversationCommit_amended (d : ℚ) (cid : Bool) (mc : Nat)
    (vsc vo vd vp wp : Bool) :
    ((closeHandlerEffects1 d cid mc vsc vo vd).countP
        CloseEffect.isUsageCommit ≤ 1) ∧
    ((closeHandlerEffects1 d cid mc vsc vo vd).countP
        CloseEffect.isUsageCommit = 1 ↔ 0 < d) ∧
    ((closeHandlerEffects2 d vp wp).countP CloseEffect.isUsageCommit ≤ 1) ∧
    ((closeHandlerEffects2 d vp wp).countP CloseEffect.isUsageCommit = 1 ↔
      1/10 < d) := by
  rw [countCommit1, countCommit2]
  refine ⟨?_, ?_, ?_, ?_⟩
  · split <;> simp
  · split <;> simp_all
  · split <;> simp
  · split <;> simp_all

/-- C5 (counterexample): a job whose script prompt is absent completes
on the first poll; the code commits
`max(0.5, 60 * 0.01) = 0.6` video-minutes, not the claimed
`max(0.5, 0 * 0.01) = 0.5`. -/
theorem videoCommit_counterexample :
    (pollVideoCompletion (fun _ => PollResp.mp4 5 true) "fast".data
        none).committed = some (3/5) ∧
    specVideoCommitAmount none = 1/2 ∧
    ((3 : ℚ)/5) ≠ 1/2 := by
  refine ⟨?_, ?_, by norm_num⟩
  · show some (pollCommitAmount none) = some (3/5)
    rw [pollCommitAmount]
    norm_num
  · rw [specVideoCommitAmount]
    norm_num

/-- C5 (amended): for every video job completing via the polling path,
the committed video-minutes amount is `max(0.5, len * 0.01)` where
`len` is the script prompt's length when the prompt is present and
non-empty; an absent or empty prompt is counted as length 60 (the code
computes `(prompt?.length || 60) * 0.01`), committing 0.6. -/
theorem videoCommit_amended (env : Nat → PollResp) (q : List Char)
    (t : List Char) (ht : t ≠ []) :
    ((pollVideoCompletion env q (some t)).completed = true →
      (pollVideoCompletion env q (some t)).committed =
        some (max (1/2) ((t.length : ℚ) * (1/100)))) ∧
    ((pollVideoCompletion env q none).completed = true →
      (pollVideoCompletion env q none).committed = some (3/5)) ∧
    ((pollVideoCompletion env q (some ([] : List Char))).completed = true →
      (pollVideoCompletion env q (some ([] : List Char))).committed =
        some (3/5)) := by
  have key : ∀ p : Option (List Char),
      (pollVideoCompletion env q p).committed =
        if (pollVideoCompletion env q p).completed then
          some (pollCommitAmount p) else none := by
    intro p
    simp only [pollVideoCompletion]
    exact pollLoop_committed_eq env p _ 0
  refine ⟨?_, ?_, ?_⟩
  · intro hc
    rw [key, hc, if_pos rfl, pollCommitAmount]
    have hlen : t.length ≠ 0 := fun h => ht (List.length_eq_zero.mp h)
    simp [hlen]
  · intro hc
    rw [key, hc, if_pos rfl, pollCommitAmount]
    norm_num
  · intro hc
    rw [key, hc, if_pos rfl, pollCommitAmount]
    norm_num

/-- Witness for C5 (amended) at a one-character prompt and an
environment whose first poll returns a non-empty mp4 body. -/
theorem videoCommit_amended_witness :
    (pollVideoCompletion (fun _ => PollResp.mp4 5 true) "fast".data
        (some ['a'])).committed =
      some (max (1/2) ((List.length ['a'] : ℚ) * (1/100))) :=
  (videoCommit_amended (fun _ => PollResp.mp4 5 true) "fast".data ['a']
    (by simp)).1 rfl

/-- C6: every call site builds the voice-service token as the literal
`VOICE_CLONE_AUTH-` followed by the base64url encoding of
`<hex>.<unix_seconds>`, where `<hex>` is the HMAC-SHA256 hex digest
(abstracted as the parameter `hmacHex`, keyed with the shared secret)
of the decimal unix-seconds string; all five call sites agree with the
spec's construction. -/
theorem voiceToken_spec (hmacHex : List Char → List Char) (t : Nat) :
    voiceTokenAudioController hmacHex t = specVoiceToken hmacHex t ∧
    voiceTokenAudioQueue hmacHex t = specVoiceToken hmacHex t ∧
    voiceTokenVideoChat hmacHex t = specVoiceToken hmacHex t ∧
    voiceTokenVoiceChat hmacHex t = specVoiceToken hmacHex t ∧
    voiceTokenVideoChatAlt hmacHex t = specVoiceToken hmacHex t :=
  ⟨rfl, rfl, rfl, rfl, rfl⟩

/-- C7: the completion polling loop performs at most 120 status
attempts unless quality is `high` (in particular at most 120 for
`fast`), at most 240 for `high`, and always terminates with the
timed-out failure mark written exactly when no video was obtained. -/
theorem pollBound_spec (env : Nat → PollResp) (quality : List Char)
    (prompt : Option (List Char)) :
    (pollVideoCompletion env quality prompt).attemptsUsed ≤
      (if quality = "high".data then 240 else 120) ∧
    (pollVideoCompletion env "fast".data prompt).attemptsUsed ≤ 120 ∧
    (pollVideoCompletion env "high".data prompt).attemptsUsed ≤ 240 ∧
    (pollVideoCompletion env quality prompt).timedOutMarked =
      !(pollVideoCompletion env quality prompt).completed := by
  refine ⟨?_, ?_, ?_, rfl⟩
  · simp only [pollVideoCompletion]
    split
    · exact pollLoop_attempts_le env prompt 240 0
    · exact pollLoop_attempts_le env prompt 120 0
  · simp only [pollVideoCompletion]
    rw [if_neg (by decide)]
    exact pollLoop_attempts_le env prompt 120 0
  · simp only [pollVideoCompletion]
    simpa using pollLoop_attempts_le env prompt 240 0

theorem bearerCheck_iff (hd : List Char) (tok : List Char) :
    (!hd.isEmpty && "Bearer ".data.isPrefixOf hd && hd.drop 7 == tok) = true ↔
      hd = "Bearer ".data ++ tok := by
  constructor
  · intro hb
    simp only [Bool.and_eq_true, beq_iff_eq, List.isPrefixOf_iff_prefix] at hb
    obtain ⟨⟨hne, hpre⟩, hdrop⟩ := hb
    obtain ⟨t, ht⟩ := hpre
    rw [← ht] at hdrop ⊢
    rw [List.drop_left' (by rfl : ("Bearer ".data).length = 7)] at hdrop
    rw [hdrop]
  · intro hb
    subst hb
    have h1 : ("Bearer ".data ++ tok).isEmpty = false := by
      simp [List.isEmpty_iff]
    have h2 : ("Bearer ".data ++ tok).drop 7 = tok :=
      List.drop_left' (by rfl : ("Bearer ".data).length = 7)
    simp [h1, h2, List.isPrefixOf_iff_prefix]

/-- C9 (counterexample): a worker-callback request with a wrong bearer
token and a wrong `x-worker-token` is answered 401 with the JSON body
`{success: false, message: "Unauthorized worker"}` — not with an empty
body as claimed. -/
theorem workerToken_counterexample :
    verifyWorkerToken (some "sekret".data) (some "Bearer nope".data)
        (some "wrong".data) =
      WorkerAuthResult.respond 401
        (some (false, "Unauthorized worker".data)) ∧
    WorkerAuthResult.respond 401
        (some (false, "Unauthorized worker".data)) ≠
      WorkerAuthResult.respond 401 none := by
  constructor
  · rfl
  · simp

/-- C9 (amended): with a configured non-empty
`WORKER_CALLBACK_TOKEN`, the middleware passes the request through
exactly when the `Authorization` header is `Bearer <token>` or the
`x-worker-token` header equals the token; otherwise it responds
HTTP 401 with the JSON body
`{success: false, message: "Unauthorized worker"}` (a body, not an
empty response as the claim states). -/
theorem workerToken_amended (tok : List Char) (hne : tok ≠ [])
    (auth x : Option (List Char)) :
    (verifyWorkerToken (some tok) auth x = WorkerAuthResult.nextHandler ↔
      auth = some ("Bearer ".data ++ tok) ∨ x = some tok) ∧
    (verifyWorkerToken (some tok) auth x ≠ WorkerAuthResult.nextHandler →
      verifyWorkerToken (some tok) auth x =
        WorkerAuthResult.respond 401
          (some (false, "Unauthorized worker".data))) := by
  have xcond : ∀ xv : List Char, (!xv.isEmpty && xv == tok) = true ↔ xv = tok := by
    intro xv
    constructor
    · intro hh
      simp only [Bool.and_eq_true, beq_iff_eq] at hh
      exact hh.2
    · intro hh
      subst hh
      simp [List.isEmpty_iff, hne]
  cases auth with
  | none =>
    cases x with
    | none => simp [verifyWorkerToken]
    | some xv =>
      by_cases hx : xv = tok
      · subst hx
        simp only [verifyWorkerToken]
        rw [if_neg (by simp), if_pos ((xcond xv).mpr rfl)]
        simp
      · simp only [verifyWorkerToken]
        rw [if_neg (by simp), if_neg (fun hh => hx ((xcond xv).mp hh))]
        simp [hx]
  | some hv =>
    by_cases hb : hv = "Bearer ".data ++ tok
    · subst hb
      simp only [verifyWorkerToken]
      rw [if_pos ((bearerCheck_iff _ tok).mpr rfl)]
      simp
    · have hbf : (!hv.isEmpty && "Bearer ".data.isPrefixOf hv &&
          hv.drop 7 == tok) = false := by
        cases hr : (!hv.isEmpty && "Bearer ".data.isPrefixOf hv &&
            hv.drop 7 == tok) with
        | false => rfl
        | true => exact absurd ((bearerCheck_iff hv tok).mp hr) hb
      cases x with
      | none =>
        simp only [verifyWorkerToken]
        rw [if_neg (by simp [hbf])]
        simp [hb]
        exact hb
      | some xv =>
        by_cases hx : xv = tok
        · subst hx
          simp only [verifyWorkerToken]
          rw [if_neg (by simp [hbf]), if_pos ((xcond xv).mpr rfl)]
          simp
        · simp only [verifyWorkerToken]
          rw [if_neg (by simp [hbf]), if_neg (fun hh => hx ((xcond xv).mp hh))]
          simp [hb, hx]
          exact hb

/-- Witness for C9 (amended) at the token `tok`, a correct bearer
header and an absent `x-worker-token` header. -/
theorem workerToken_amended_witness :
    (verifyWorkerToken (some "tok".data)
        (some ("Bearer ".data ++ "tok".data)) none =
          WorkerAuthResult.nextHandler ↔
      some ("Bearer ".data ++ "tok".data) =
          some ("Bearer ".data ++ "tok".data) ∨
        (none : Option (List Char)) = some "tok".data) ∧
    (verifyWorkerToken (some "tok".data)
        (some ("Bearer ".data ++ "tok".data)) none ≠
          WorkerAuthResult.nextHandler →
      verifyWorkerToken (some "tok".data)
          (some ("Bearer ".data ++ "tok".data)) none =
        WorkerAuthResult.respond 401
          (some (false, "Unauthorized worker".data))) :=
  workerToken_amended "tok".data (by simp)
    (some ("Bearer ".data ++ "tok".data)) none

/-- C8: with the other request guards satisfied, the audio-generation
handler accepts a request whose trimmed text has exactly 1000
characters and rejects one of 1001 or more with HTTP 400 before the
job row is created. -/
theorem audioTextBoundary_spec (t : List Char) :
    ((trim t).length = 1000 →
      generateAudioDecision (some t) true true true =
        AudioGenOutcome.accepted ∧
      (generateAudioDecision (some t) true true true).createsJobRow = true) ∧
    (1000 < (trim t).length →
      generateAudioDecision (some t) true true true =
        AudioGenOutcome.rejected 400 ∧
      (generateAudioDecision (some t) true true true).createsJobRow =
        false) := by
  constructor
  · intro h
    have h1 : trim t ≠ [] := by
      intro hh
      rw [hh] at h
      simp at h
    have h2 : t ≠ [] := by
      intro hh
      subst hh
      have : trim ([] : List Char) = [] := rfl
      rw [this] at h
      simp at h
    have hd : generateAudioDecision (some t) true true true =
        AudioGenOutcome.accepted := by
      simp [generateAudioDecision, List.isEmpty_iff, h1, h2, h]
    exact ⟨hd, by rw [hd]; rfl⟩
  · intro h
    have h1 : trim t ≠ [] := by
      intro hh
      rw [hh] at h
      simp at h
    have h2 : t ≠ [] := by
      intro hh
      subst hh
      have : trim ([] : List Char) = [] := rfl
      rw [this] at h
      simp at h
    have hd : generateAudioDecision (some t) true true true =
        AudioGenOutcome.rejected 400 := by
      simp [generateAudioDecision, List.isEmpty_iff, h1, h2, h]
    exact ⟨hd, by rw [hd]; rfl⟩

theorem trim_all_nonws (l : List Char) (h : ∀ c ∈ l, isWs c = false) :
    trim l = l := by
  have hdrop : ∀ m : List Char, (∀ c ∈ m, isWs c = false) →
      m.dropWhile isWs = m := by
    intro m hm
    cases m with
    | nil => rfl
    | cons c cs =>
      exact List.dropWhile_cons_of_neg
        (by simp [hm c (List.mem_cons_self _ _)])
  unfold trim
  rw [hdrop l h, hdrop _ (fun c hc => h c (List.mem_reverse.mp hc)),
    List.reverse_reverse]

theorem trim_replicate_a (n : Nat) :
    trim (List.replicate n 'a') = List.replicate n 'a' :=
  trim_all_nonws _ (by
    intro c hc
    rw [List.eq_of_mem_replicate hc]
    rfl)

theorem splitTerm_all_nonterm (l : List Char)
    (h : ∀ c ∈ l, isTerm c = false) : splitTerm l = [l] := by
  induction l with
  | nil => rfl
  | cons c cs ih =>
    have hc : isTerm c = false := h c (List.mem_cons_self _ _)
    have hcs := ih (fun c' hc' => h c' (List.mem_cons_of_mem _ hc'))
    rw [show splitTerm (c :: cs) =
        (match splitTerm cs with
         | [] => [[c]]
         | p :: ps => (c :: p) :: ps) from by
      simp [splitTerm, hc]]
    rw [hcs]

theorem splitTerm_ne_nil (l : List Char) : splitTerm l ≠ [] := by
  induction l with
  | nil => simp [splitTerm]
  | cons c cs ih =>
    by_cases h : isTerm c
    · cases cs with
      | nil => simp [splitTerm, h]
      | cons c2 cs2 =>
        by_cases h2 : isTerm c2
        · simpa [splitTerm, h, h2] using ih
        · simp [splitTerm, h, h2]
    · cases hs : splitTerm cs with
      | nil => simp [splitTerm, h, hs]
      | cons p ps => simp [splitTerm, h, hs]

theorem mem_splitTerm (l : List Char) :
    ∀ p ∈ splitTerm l, ∀ c ∈ p, c ∈ l ∧ isTerm c = false := by
  induction l with
  | nil =>
    intro p hp c hc
    simp [splitTerm] at hp
    subst hp
    simp at hc
  | cons a cs ih =>
    intro p hp c hc
    by_cases h : isTerm a
    · cases cs with
      | nil =>
        simp [splitTerm, h] at hp
        subst hp
        simp at hc
      | cons b cs2 =>
        by_cases h2 : isTerm b
        · rw [show splitTerm (a :: b :: cs2) = splitTerm (b :: cs2) by
            simp [splitTerm, h, h2]] at hp
          obtain ⟨hmem, hterm⟩ := ih p hp c hc
          exact ⟨List.mem_cons_of_mem _ hmem, hterm⟩
        · rw [show splitTerm (a :: b :: cs2) = [] :: splitTerm (b :: cs2) by
            simp [splitTerm, h, h2]] at hp
          rcases List.mem_cons.mp hp with hp | hp
          · subst hp; simp at hc
          · obtain ⟨hmem, hterm⟩ := ih p hp c hc
            exact ⟨List.mem_cons_of_mem _ hmem, hterm⟩
    · cases hs : splitTerm cs with
      | nil => exact absurd hs (splitTerm_ne_nil cs)
      | cons q qs =>
        rw [show splitTerm (a :: cs) = (a :: q) :: qs by
          simp [splitTerm, h, hs]] at hp
        rcases List.mem_cons.mp hp with hp | hp
        · subst hp
          rcases List.mem_cons.mp hc with hc | hc
          · subst hc
            refine ⟨List.mem_cons_self _ _, ?_⟩
            revert h
            cases isTerm c <;> simp
          · obtain ⟨hmem, hterm⟩ :=
              ih q (by rw [hs]; exact List.mem_cons_self _ _) c hc
            exact ⟨List.mem_cons_of_mem _ hmem, hterm⟩
        · obtain ⟨hmem, hterm⟩ :=
            ih p (by rw [hs]; exact List.mem_cons_of_mem _ hp) c hc
          exact ⟨List.mem_cons_of_mem _ hmem, hterm⟩

theorem trim_eq_nil_iff (l : List Char) :
    trim l = [] ↔ ∀ c ∈ l, isWs c = true := by
  unfold trim
  rw [List.reverse_eq_nil_iff, List.dropWhile_eq_nil_iff]
  constructor
  · intro h c hc
    have hl : l = l.takeWhile isWs ++ l.dropWhile isWs :=
      (List.takeWhile_append_dropWhile isWs l).symm
    rcases List.mem_append.mp (hl ▸ hc) with h1 | h1
    · exact List.mem_takeWhile_imp h1
    · exact h c (List.mem_reverse.mpr h1)
  · intro h c hc
    exact h c ((List.dropWhile_sublist isWs).subset (List.mem_reverse.mp hc))

theorem trim_length_le (l : List Char) : (trim l).length ≤ l.length := by
  unfold trim
  rw [List.length_reverse]
  calc ((l.dropWhile isWs).reverse.dropWhile isWs).length
      ≤ (l.dropWhile isWs).reverse.length :=
        (List.dropWhile_sublist _).length_le
    _ = (l.dropWhile isWs).length := List.length_reverse _
    _ ≤ l.length := (List.dropWhile_sublist _).length_le

/-- C10: a text made only of sentence terminators and whitespace that
contains at least one non-whitespace character yields an empty chunk
plan, yet (being non-blank and within the length cap) passes every
`generateAudio` validation, so a job row is created with an empty chunk
plan. -/
theorem punctuationOnlyChunks_spec (text : List Char)
    (hall : ∀ c ∈ text, isTerm c = true ∨ isWs c = true)
    (hsome : ∃ c ∈ text, isWs c = false)
    (hlen : text.length ≤ 1000) :
    splitTextIntoChunks text 200 = [] ∧
    generateAudioDecision (some text) true true true =
      AudioGenOutcome.accepted := by
  constructor
  · have hfilter : (splitTerm text).filter (fun s => !(trim s).isEmpty) = [] := by
      rw [List.filter_eq_nil_iff]
      intro p hp
      have hws : ∀ c ∈ p, isWs c = true := by
        intro c hc
        obtain ⟨hmem, hterm⟩ := mem_splitTerm text p hp c hc
        rcases hall c hmem with h | h
        · rw [h] at hterm; cases hterm
        · exact h
      simp [List.isEmpty_iff, (trim_eq_nil_iff p).mpr hws]
    simp [splitTextIntoChunks, hfilter]
  · obtain ⟨c0, hc0, hws0⟩ := hsome
    have ht1 : trim text ≠ [] := by
      intro hh
      rw [(trim_eq_nil_iff text).mp hh c0 hc0] at hws0
      cases hws0
    have ht2 : text ≠ [] := by
      intro hh
      subst hh
      simp at hc0
    have ht3 : ¬ (1000 < (trim text).length) := by
      have := trim_length_le text
      omega
    simp [generateAudioDecision, List.isEmpty_iff, ht1, ht2, ht3]

theorem wordStep_bound (st : List (List Char) × List Char) (w : List Char)
    (hw : w.length ≤ 600) (h1 : ∀ c ∈ st.1, c.length ≤ 601)
    (h2 : st.2.length ≤ 600) :
    (∀ c ∈ (wordStep 600 st w).1, c.length ≤ 601) ∧
    (wordStep 600 st w).2.length ≤ 600 := by
  unfold wordStep
  by_cases hp : (if st.2.isEmpty then w else st.2 ++ ' ' :: w).length ≤ 600
  · rw [if_pos hp]
    exact ⟨h1, hp⟩
  · rw [if_neg hp]
    refine ⟨?_, hw⟩
    intro c hc
    by_cases he : st.2.isEmpty = true
    · rw [if_pos he] at hc
      exact h1 c hc
    · rw [if_neg he] at hc
      rcases List.mem_append.mp hc with h | h
      · exact h1 c h
      · rw [List.mem_singleton.mp h]
        omega

theorem wordFold_bound (words : List (List Char)) :
    ∀ st : List (List Char) × List Char,
      (∀ w ∈ words, w.length ≤ 600) →
      (∀ c ∈ st.1, c.length ≤ 601) → st.2.length ≤ 600 →
      (∀ c ∈ (words.foldl (wordStep 600) st).1, c.length ≤ 601) ∧
      (words.foldl (wordStep 600) st).2.length ≤ 600 := by
  induction words with
  | nil => intro st _ h1 h2; exact ⟨h1, h2⟩
  | cons w ws ih =>
    intro st hw h1 h2
    rw [List.foldl_cons]
    obtain ⟨g1, g2⟩ :=
      wordStep_bound st w (hw w (List.mem_cons_self _ _)) h1 h2
    exact ih _ (fun w' hw' => hw w' (List.mem_cons_of_mem _ hw')) g1 g2

theorem sentenceStep_bound (st : List (List Char) × List Char)
    (s : List Char) (hw : ∀ w ∈ splitSpace (trim s), w.length ≤ 600)
    (h1 : ∀ c ∈ st.1, c.length ≤ 601) (h2 : st.2.length ≤ 600) :
    (∀ c ∈ (sentenceStep 600 st s).1, c.length ≤ 601) ∧
    (sentenceStep 600 st s).2.length ≤ 600 := by
  unfold sentenceStep
  by_cases hp :
      (if st.2.isEmpty then trim s else st.2 ++ '.' :: ' ' :: trim s).length ≤ 600
  · rw [if_pos hp]
    exact ⟨h1, hp⟩
  · rw [if_neg hp]
    have hch1 : ∀ c ∈ (if st.2.isEmpty then st.1 else st.1 ++ [st.2 ++ ['.']]),
        c.length ≤ 601 := by
      intro c hc
      by_cases he : st.2.isEmpty = true
      · rw [if_pos he] at hc
        exact h1 c hc
      · rw [if_neg he] at hc
        rcases List.mem_append.mp hc with h | h
        · exact h1 c h
        · rw [List.mem_singleton.mp h]
          simp only [List.length_append, List.length_cons, List.length_nil]
          omega
    by_cases hlong : 600 < (trim s).length
    · rw [if_pos hlong]
      obtain ⟨g1, g2⟩ := wordFold_bound (splitSpace (trim s))
        ((if st.2.isEmpty = true then st.1 else st.1 ++ [st.2 ++ ['.']]), [])
        hw hch1 (by show ([] : List Char).length ≤ 600; simp)
      refine ⟨g1, ?_⟩
      show (if ((splitSpace (trim s)).foldl (wordStep 600)
          ((if st.2.isEmpty = true then st.1 else st.1 ++ [st.2 ++ ['.']]),
            [])).2.isEmpty = true then st.2
        else ((splitSpace (trim s)).foldl (wordStep 600)
          ((if st.2.isEmpty = true then st.1 else st.1 ++ [st.2 ++ ['.']]),
            [])).2).length ≤ 600
      by_cases he : ((splitSpace (trim s)).foldl (wordStep 600)
          ((if st.2.isEmpty = true then st.1 else st.1 ++ [st.2 ++ ['.']]),
            [])).2.isEmpty = true
      · rw [if_pos he]
        exact h2
      · rw [if_neg he]
        exact g2
    · rw [if_neg hlong]
      refine ⟨hch1, ?_⟩
      show (trim s).length ≤ 600
      omega

/-- C1 (counterexample): a text of 600 identical letters forms a
single sentence that fits the 600-character budget, but the chunker
appends a period, so the emitted chunk has 601 characters and an
estimated token count of 201, exceeding the claimed cap of 200 tokens
(600 characters). -/
theorem chunkTokenCap_counterexample :
    splitTextIntoChunks (List.replicate 600 'a') 200 =
      [List.replicate 600 'a' ++ ['.']] ∧
    (List.replicate 600 'a' ++ ['.']).length = 601 ∧
    estimateTokenCount (List.replicate 600 'a' ++ ['.']) = 201 := by
  have hlen : (List.replicate 600 'a' ++ ['.']).length = 601 := by
    rw [List.length_append, List.length_replicate]
    rfl
  have hest : estimateTokenCount (List.replicate 600 'a' ++ ['.']) = 201 := by
    unfold estimateTokenCount
    rw [hlen]
  refine ⟨?_, hlen, hest⟩
  have htrim : trim (List.replicate 600 'a') = List.replicate 600 'a' :=
    trim_replicate_a 600
  have hsplit : splitTerm (List.replicate 600 'a') =
      [List.replicate 600 'a'] :=
    splitTerm_all_nonterm _ (by
      intro c hc
      rw [List.eq_of_mem_replicate hc]
      rfl)
  have hne : (List.replicate 600 'a').isEmpty = false := rfl
  rw [splitTextIntoChunks, hsplit]
  rw [show (([List.replicate 600 'a']).filter
      (fun s => !(trim s).isEmpty)) = [List.replicate 600 'a'] from by
    rw [List.filter_cons, List.filter_nil]
    rw [htrim, hne]
    rfl]
  rw [List.foldl_cons, List.foldl_nil]
  rw [show sentenceStep (200 * 3) ([], []) (List.replicate 600 'a') =
      ([], List.replicate 600 'a') from by
    unfold sentenceStep
    rw [htrim]
    show (if (if (true : Bool) = true then List.replicate 600 'a'
        else [] ++ '.' :: ' ' :: List.replicate 600 'a').length ≤ 200 * 3
      then (([] : List (List Char)), (if (true : Bool) = true
        then List.replicate 600 'a'
        else [] ++ '.' :: ' ' :: List.replicate 600 'a')) else _) = _
    rw [if_pos rfl]
    rw [if_pos (by rw [List.length_replicate])]]
  show (((if (List.replicate 600 'a').isEmpty = true then [] else
      [] ++ [List.replicate 600 'a' ++ ['.']]) : List (List Char)).filter
        (fun c => !(trim c).isEmpty)) = [List.replicate 600 'a' ++ ['.']]
  rw [hne]
  show (([List.replicate 600 'a' ++ ['.']] : List (List Char)).filter
      (fun c => !(trim c).isEmpty)) = [List.replicate 600 'a' ++ ['.']]
  have htrim2 : trim (List.replicate 600 'a' ++ ['.']) =
      List.replicate 600 'a' ++ ['.'] :=
    trim_all_nonws _ (by
      intro c hc
      rcases List.mem_append.mp hc with h | h
      · rw [List.eq_of_mem_replicate h]; rfl
      · rw [List.mem_singleton.mp h]; rfl)
  rw [List.filter_cons, List.filter_nil, htrim2]
  rfl

theorem sentenceFold_bound (ss : List (List Char)) :
    ∀ st : List (List Char) × List Char,
      (∀ s ∈ ss, ∀ w ∈ splitSpace (trim s), w.length ≤ 600) →
      (∀ c ∈ st.1, c.length ≤ 601) → st.2.length ≤ 600 →
      (∀ c ∈ (ss.foldl (sentenceStep 600) st).1, c.length ≤ 601) ∧
      (ss.foldl (sentenceStep 600) st).2.length ≤ 600 := by
  induction ss with
  | nil => intro st _ h1 h2; exact ⟨h1, h2⟩
  | cons s ss ih =>
    intro st hw h1 h2
    rw [List.foldl_cons]
    obtain ⟨g1, g2⟩ :=
      sentenceStep_bound st s (hw s (List.mem_cons_self _ _)) h1 h2
    exact ih _ (fun s' hs' => hw s' (List.mem_cons_of_mem _ hs')) g1 g2

/-- C1 (amended): provided every space-separated word of every
sentence has at most `3·C = 600` characters, every chunk emitted by
the chunker at cap `C = 200` has at most 601 characters — the budget
plus the appended terminating period — and hence an estimated token
count of at most `C + 1 = 201`; the claimed bounds of 600 characters
and 200 tokens are exceeded by exactly the appended period, and a
single word longer than 600 characters is emitted unsplit, so without
the word-length proviso no bound holds at all. -/
theorem chunkTokenCap_amended (text : List Char)
    (hw : ∀ s ∈ splitTerm text, ∀ w ∈ splitSpace (trim s), w.length ≤ 600) :
    ∀ c ∈ splitTextIntoChunks text 200,
      c.length ≤ 601 ∧ estimateTokenCount c ≤ 201 := by
  intro c hc
  suffices h : c.length ≤ 601 by
    refine ⟨h, ?_⟩
    unfold estimateTokenCount
    omega
  rw [splitTextIntoChunks] at hc
  have hc2 := (List.mem_filter.mp hc).1
  have hwsen : ∀ s ∈ (splitTerm text).filter (fun s => !(trim s).isEmpty),
      ∀ w ∈ splitSpace (trim s), w.length ≤ 600 := by
    intro s hs
    exact hw s (List.mem_filter.mp hs).1
  obtain ⟨g1, g2⟩ := sentenceFold_bound
    ((splitTerm text).filter (fun s => !(trim s).isEmpty)) ([], []) hwsen
    (by simp) (by simp)
  rw [show ((200 : Nat) * 3) = 600 from rfl] at hc2
  set st := ((splitTerm text).filter
      (fun s => !(trim s).isEmpty)).foldl (sentenceStep 600) ([], []) with hst
  by_cases he : st.2.isEmpty = true
  · rw [if_pos he] at hc2
    exact g1 c hc2
  · rw [if_neg he] at hc2
    rcases List.mem_append.mp hc2 with h | h
    · exact g1 c h
    · rw [List.mem_singleton.mp h]
      simp only [List.length_append, List.length_cons, List.length_nil]
      omega

/-- Witness for C1 (amended) at the two-letter text `ab`, whose single
chunk is `ab.`. -/
theorem chunkTokenCap_amended_witness :
    (['a', 'b', '.'] : List Char).length ≤ 601 ∧
    estimateTokenCount ['a', 'b', '.'] ≤ 201 :=
  chunkTokenCap_amended ['a', 'b'] (by decide) ['a', 'b', '.'] (by decide)

/-- Witness for C10 at the text consisting of three periods. -/
theorem punctuationOnlyChunks_spec_witness :
    splitTextIntoChunks ['.', '.', '.'] 200 = [] ∧
    generateAudioDecision (some ['.', '.', '.']) true true true =
      AudioGenOutcome.accepted :=
  punctuationOnlyChunks_spec ['.', '.', '.'] (by decide) (by decide)
    (by decide)

theorem core_cons_pos (c : Char) (l : List Char) (h : keepCore c = true) :
    core (c :: l) = c :: core l := by
  simp [core, List.filter_cons, h]

theorem core_cons_neg (c : Char) (l : List Char) (h : keepCore c = false) :
    core (c :: l) = core l := by
  simp [core, List.filter_cons, h]

theorem core_append (a b : List Char) : core (a ++ b) = core a ++ core b := by
  simp [core]

theorem keepCore_of_term (c : Char) (h : isTerm c = true) :
    keepCore c = false := by
  simp [keepCore, h]

theorem keepCore_of_ws (c : Char) (h : isWs c = true) :
    keepCore c = false := by
  simp [keepCore, h]

theorem core_splitTerm (l : List Char) :
    ((splitTerm l).map core).flatten = core l := by
  induction l with
  | nil => rfl
  | cons c cs ih =>
    by_cases h : isTerm c
    · have hkc : keepCore c = false := keepCore_of_term c h
      cases cs with
      | nil =>
        rw [show splitTerm [c] = [[], []] from by simp [splitTerm, h]]
        rw [core_cons_neg c [] hkc]
        rfl
      | cons b bs =>
        by_cases h2 : isTerm b
        · rw [show splitTerm (c :: b :: bs) = splitTerm (b :: bs) from by
            simp [splitTerm, h, h2]]
          rw [ih, core_cons_neg c _ hkc]
        · rw [show splitTerm (c :: b :: bs) = [] :: splitTerm (b :: bs) from by
            simp [splitTerm, h, h2]]
          rw [List.map_cons, List.flatten_cons, ih, core_cons_neg c _ hkc]
          rfl
    · cases hs : splitTerm cs with
      | nil => exact absurd hs (splitTerm_ne_nil cs)
      | cons p ps =>
        rw [show splitTerm (c :: cs) = (c :: p) :: ps from by
          simp [splitTerm, h, hs]]
        rw [List.map_cons, List.flatten_cons]
        have ihh : core p ++ (ps.map core).flatten = core cs := by
          rw [← List.flatten_cons, ← List.map_cons, ← hs]
          exact ih
        by_cases hk : keepCore c = true
        · rw [core_cons_pos c p hk, core_cons_pos c cs hk, List.cons_append,
            ihh]
        · have hk' : keepCore c = false := by
            revert hk
            cases keepCore c <;> simp
          rw [core_cons_neg c p hk', core_cons_neg c cs hk', ihh]

theorem splitSpace_ne_nil (l : List Char) : splitSpace l ≠ [] := by
  induction l with
  | nil => simp [splitSpace]
  | cons c cs ih =>
    by_cases h : c = ' '
    · simp [splitSpace, h]
    · cases hs : splitSpace cs with
      | nil => simp [splitSpace, h, hs]
      | cons p ps => simp [splitSpace, h, hs]

theorem core_splitSpace (l : List Char) :
    ((splitSpace l).map core).flatten = core l := by
  induction l with
  | nil => rfl
  | cons c cs ih =>
    by_cases h : c = ' '
    · subst h
      rw [show splitSpace (' ' :: cs) = [] :: splitSpace cs from by
        simp [splitSpace]]
      rw [List.map_cons, List.flatten_cons, ih,
        core_cons_neg ' ' _ (keepCore_of_ws ' ' rfl)]
      rfl
    · cases hs : splitSpace cs with
      | nil => exact absurd hs (splitSpace_ne_nil cs)
      | cons p ps =>
        rw [show splitSpace (c :: cs) = (c :: p) :: ps from by
          simp [splitSpace, h, hs]]
        rw [List.map_cons, List.flatten_cons]
        have ihh : core p ++ (ps.map core).flatten = core cs := by
          rw [← List.flatten_cons, ← List.map_cons, ← hs]
          exact ih
        by_cases hk : keepCore c = true
        · rw [core_cons_pos c p hk, core_cons_pos c cs hk, List.cons_append,
            ihh]
        · have hk' : keepCore c = false := by
            revert hk
            cases keepCore c <;> simp
          rw [core_cons_neg c p hk', core_cons_neg c cs hk', ihh]

theorem core_dropWhile_ws (l : List Char) :
    core (l.dropWhile isWs) = core l := by
  induction l with
  | nil => rfl
  | cons c cs ih =>
    by_cases h : isWs c = true
    · rw [List.dropWhile_cons_of_pos h, ih,
        core_cons_neg c _ (keepCore_of_ws c h)]
    · rw [List.dropWhile_cons_of_neg (by simpa using h)]

theorem core_trim (l : List Char) : core (trim l) = core l := by
  unfold trim
  have hrev : ∀ m : List Char, core m.reverse = (core m).reverse := by
    intro m
    simp [core]
  rw [hrev, core_dropWhile_ws, hrev, List.reverse_reverse,
    core_dropWhile_ws]

theorem core_of_trim_nil (p : List Char) (h : trim p = []) : core p = [] := by
  have hws := (trim_eq_nil_iff p).mp h
  unfold core
  rw [List.filter_eq_nil_iff]
  intro c hc
  simp [keepCore, hws c hc]

theorem wordStep_core (st : List (List Char) × List Char) (w : List Char) :
    ((wordStep 600 st w).1.map core).flatten ++ core (wordStep 600 st w).2 =
      (st.1.map core).flatten ++ core st.2 ++ core w := by
  unfold wordStep
  by_cases hp : (if st.2.isEmpty then w else st.2 ++ ' ' :: w).length ≤ 600
  · rw [if_pos hp]
    show (st.1.map core).flatten ++
        core (if st.2.isEmpty = true then w else st.2 ++ ' ' :: w) = _
    by_cases he : st.2.isEmpty = true
    · rw [if_pos he, List.isEmpty_iff.mp he]
      show (st.1.map core).flatten ++ core w =
        (st.1.map core).flatten ++ core [] ++ core w
      rw [show core [] = [] from rfl, List.append_nil]
    · rw [if_neg he, core_append,
        core_cons_neg ' ' w (keepCore_of_ws ' ' rfl), List.append_assoc]
  · rw [if_neg hp]
    show ((if st.2.isEmpty = true then st.1 else st.1 ++ [st.2]).map
        core).flatten ++ core w = _
    by_cases he : st.2.isEmpty = true
    · rw [if_pos he, List.isEmpty_iff.mp he]
      rw [show core [] = [] from rfl, List.append_nil]
    · rw [if_neg he, List.map_append, List.flatten_append]
      show (st.1.map core).flatten ++ (core st.2 ++ []) ++ core w = _
      rw [List.append_nil]

theorem wordFold_core (words : List (List Char)) :
    ∀ st : List (List Char) × List Char,
      ((words.foldl (wordStep 600) st).1.map core).flatten ++
        core (words.foldl (wordStep 600) st).2 =
      (st.1.map core).flatten ++ core st.2 ++ (words.map core).flatten := by
  induction words with
  | nil => intro st; simp
  | cons w ws ih =>
    intro st
    rw [List.foldl_cons, ih (wordStep 600 st w), wordStep_core,
      List.map_cons, List.flatten_cons]
    simp only [List.append_assoc]

theorem wordFold_snd_eq_nil (words : List (List Char)) :
    ∀ st : List (List Char) × List Char,
      (words.foldl (wordStep 600) st).2 = [] →
      words.getLast? = some [] ∨ (words = [] ∧ st.2 = []) := by
  induction words with
  | nil => intro st h; exact Or.inr ⟨rfl, h⟩
  | cons w ws ih =>
    intro st h
    rw [List.foldl_cons] at h
    rcases ih (wordStep 600 st w) h with h1 | ⟨h1, h2⟩
    · left
      cases ws with
      | nil => simp at h1
      | cons b bs =>
        rw [List.getLast?_cons_cons]
        exact h1
    · subst h1
      left
      have hw : w = [] := by
        unfold wordStep at h2
        by_cases hp : (if st.2.isEmpty then w else st.2 ++ ' ' :: w).length ≤ 600
        · rw [if_pos hp] at h2
          by_cases he : st.2.isEmpty = true
          · rw [if_pos he] at h2
            exact h2
          · rw [if_neg he] at h2
            exact absurd h2 (by simp)
        · rw [if_neg hp] at h2
          exact h2
      rw [hw]
      rfl

theorem splitSpace_getLast (l : List Char) :
    l ≠ [] → l.getLast? ≠ some ' ' →
      (splitSpace l).getLast? ≠ some [] := by
  induction l with
  | nil => intro h; exact absurd rfl h
  | cons c cs ih =>
    intro _ hlast
    cases cs with
    | nil =>
      have hc : c ≠ ' ' := fun hh => hlast (by rw [hh]; rfl)
      rw [show splitSpace [c] = [[c]] from by simp [splitSpace, hc]]
      simp
    | cons b bs =>
      have hlast2 : (b :: bs).getLast? ≠ some ' ' := by
        rw [List.getLast?_cons_cons] at hlast
        exact hlast
      by_cases hc : c = ' '
      · subst hc
        rw [show splitSpace (' ' :: b :: bs) = [] :: splitSpace (b :: bs)
          from by simp [splitSpace]]
        have hrec := ih (by simp) hlast2
        cases hq : splitSpace (b :: bs) with
        | nil => exact absurd hq (splitSpace_ne_nil _)
        | cons q qs =>
          rw [List.getLast?_cons_cons]
          rw [hq] at hrec
          exact hrec
      · cases hq : splitSpace (b :: bs) with
        | nil => exact absurd hq (splitSpace_ne_nil _)
        | cons q qs =>
          rw [show splitSpace (c :: b :: bs) = (c :: q) :: qs from by
            show (if c = ' ' then [] :: splitSpace (b :: bs)
              else match splitSpace (b :: bs) with
                | [] => [[c]]
                | p :: ps => (c :: p) :: ps) = (c :: q) :: qs
            rw [if_neg hc, hq]]
          cases qs with
          | nil => simp
          | cons r rs =>
            rw [List.getLast?_cons_cons]
            have hrec := ih (by simp) hlast2
            rw [hq, List.getLast?_cons_cons] at hrec
            exact hrec

theorem trim_getLast_not_ws (l : List Char) (c : Char)
    (h : (trim l).getLast? = some c) : isWs c = false := by
  unfold trim at h
  rw [List.getLast?_reverse] at h
  have h2 := List.head?_dropWhile_not isWs ((l.dropWhile isWs).reverse)
  rw [h] at h2
  exact h2

theorem sentenceStep_core (st : List (List Char) × List Char)
    (s : List Char) :
    ((sentenceStep 600 st s).1.map core).flatten ++
      core (sentenceStep 600 st s).2 =
    (st.1.map core).flatten ++ core st.2 ++ core (trim s) := by
  unfold sentenceStep
  by_cases hp :
      (if st.2.isEmpty then trim s else st.2 ++ '.' :: ' ' :: trim s).length ≤ 600
  · rw [if_pos hp]
    show (st.1.map core).flatten ++
        core (if st.2.isEmpty = true then trim s
          else st.2 ++ '.' :: ' ' :: trim s) = _
    by_cases he : st.2.isEmpty = true
    · rw [if_pos he, List.isEmpty_iff.mp he]
      rw [show core [] = [] from rfl, List.append_nil]
    · rw [if_neg he, core_append,
        core_cons_neg '.' _ (keepCore_of_term '.' rfl),
        core_cons_neg ' ' _ (keepCore_of_ws ' ' rfl), List.append_assoc]
  · rw [if_neg hp]
    have hch : ((if st.2.isEmpty = true then st.1
        else st.1 ++ [st.2 ++ ['.']]).map core).flatten =
        (st.1.map core).flatten ++ core st.2 := by
      by_cases he : st.2.isEmpty = true
      · rw [if_pos he, List.isEmpty_iff.mp he]
        rw [show core [] = [] from rfl, List.append_nil]
      · rw [if_neg he, List.map_append, List.flatten_append]
        rw [show (([st.2 ++ ['.']]).map core).flatten = core st.2 from ?_]
        show core (st.2 ++ ['.']) ++ [] = core st.2
        rw [List.append_nil, core_append,
          core_cons_neg '.' [] (keepCore_of_term '.' rfl)]
        rw [show core ([] : List Char) = [] from rfl, List.append_nil]
    by_cases hlong : 600 < (trim s).length
    · rw [if_pos hlong]
      have hne2 : ((splitSpace (trim s)).foldl (wordStep 600)
          ((if st.2.isEmpty = true then st.1 else st.1 ++ [st.2 ++ ['.']]),
            [])).2 ≠ [] := by
        intro hnil
        rcases wordFold_snd_eq_nil _ _ hnil with h1 | ⟨h1, _⟩
        · have htne : trim s ≠ [] := by
            intro hh
            rw [hh] at hlong
            simp at hlong
          have hlast : (trim s).getLast? ≠ some ' ' := by
            intro hh
            have hcontr := trim_getLast_not_ws s ' ' hh
            rw [show isWs ' ' = true from rfl] at hcontr
            cases hcontr
          exact splitSpace_getLast (trim s) htne hlast h1
        · exact absurd h1 (splitSpace_ne_nil _)
      show ((((splitSpace (trim s)).foldl (wordStep 600)
          ((if st.2.isEmpty = true then st.1 else st.1 ++ [st.2 ++ ['.']]),
            [])).1).map core).flatten ++
        core (if ((splitSpace (trim s)).foldl (wordStep 600)
            ((if st.2.isEmpty = true then st.1 else st.1 ++ [st.2 ++ ['.']]),
              [])).2.isEmpty = true then st.2
          else ((splitSpace (trim s)).foldl (wordStep 600)
            ((if st.2.isEmpty = true then st.1 else st.1 ++ [st.2 ++ ['.']]),
              [])).2) = _
      set W := (splitSpace (trim s)).foldl (wordStep 600)
        ((if st.2.isEmpty = true then st.1 else st.1 ++ [st.2 ++ ['.']]), [])
        with hW
      have hfold : (W.1.map core).flatten ++ core W.2 =
          ((if st.2.isEmpty = true then st.1
            else st.1 ++ [st.2 ++ ['.']]).map core).flatten ++
            core ([] : List Char) ++ core (trim s) := by
        have h0 := wordFold_core (splitSpace (trim s))
          ((if st.2.isEmpty = true then st.1 else st.1 ++ [st.2 ++ ['.']]),
            [])
        rw [core_splitSpace] at h0
        exact h0
      rw [if_neg (fun hh => hne2 (List.isEmpty_iff.mp hh))]
      rw [hfold, hch]
      rw [show core ([] : List Char) = [] from rfl, List.append_nil]
    · rw [if_neg hlong]
      show ((if st.2.isEmpty = true then st.1
          else st.1 ++ [st.2 ++ ['.']]).map core).flatten ++ core (trim s) = _
      rw [hch]

theorem sentenceFold_core (ss : List (List Char)) :
    ∀ st : List (List Char) × List Char,
      (((ss.foldl (sentenceStep 600) st).1).map core).flatten ++
        core (ss.foldl (sentenceStep 600) st).2 =
      (st.1.map core).flatten ++ core st.2 ++
        (ss.map (fun s => core (trim s))).flatten := by
  induction ss with
  | nil => intro st; simp
  | cons s ts ih =>
    intro st
    rw [List.foldl_cons, ih (sentenceStep 600 st s), sentenceStep_core,
      List.map_cons, List.flatten_cons]
    simp only [List.append_assoc]

theorem flatten_core_filter_blank (L : List (List Char)) :
    ((L.filter (fun c => !(trim c).isEmpty)).map core).flatten =
      (L.map core).flatten := by
  induction L with
  | nil => rfl
  | cons x xs ihx =>
    rw [List.filter_cons]
    by_cases hx : (trim x).isEmpty = true
    · rw [if_neg (by rw [hx]; simp)]
      rw [ihx, List.map_cons, List.flatten_cons,
        core_of_trim_nil x (List.isEmpty_iff.mp hx)]
      rfl
    · have hx' : (trim x).isEmpty = false := by
        revert hx
        cases (trim x).isEmpty <;> simp
      rw [if_pos (by rw [hx']; rfl)]
      rw [List.map_cons, List.flatten_cons, List.map_cons,
        List.flatten_cons, ihx]

/-- C4 (counterexample): for the source text `a!`, the chunker emits
the single chunk `a.`; the concatenation `a.` differs from the source
`a!` in a non-whitespace character (the `!` became `.`), so the
concatenation does not equal the source up to whitespace
normalization. -/
theorem chunkConcat_counterexample :
    (splitTextIntoChunks ['a', '!'] 200).flatten = ['a', '.'] ∧
    ¬ wsAgnosticEq (splitTextIntoChunks ['a', '!'] 200).flatten
        ['a', '!'] := by
  constructor
  · decide
  · unfold wsAgnosticEq
    decide

/-- C4 (amended): the concatenation of the chunks equals the source
text up to whitespace normalization AND sentence-terminator
normalization: the subsequence of characters that are neither
whitespace nor one of the terminators `.`, `!`, `?` is preserved
exactly; terminator runs are rewritten to periods and boundary
whitespace is normalized, so characters other than whitespace and
terminators are never added, removed, or changed. -/
theorem chunkConcat_amended (text : List Char) :
    core (splitTextIntoChunks text 200).flatten = core text := by
  have hcf : ∀ L : List (List Char),
      core L.flatten = (L.map core).flatten := by
    intro L
    unfold core
    rw [List.filter_flatten]
  rw [splitTextIntoChunks]
  rw [hcf, flatten_core_filter_blank]
  rw [show ((200 : Nat) * 3) = 600 from rfl]
  set F := ((splitTerm text).filter
      (fun s => !(trim s).isEmpty)).foldl (sentenceStep 600) ([], [])
    with hF
  have hpush : ((if F.2.isEmpty = true then F.1
      else F.1 ++ [F.2 ++ ['.']]).map core).flatten =
      (F.1.map core).flatten ++ core F.2 := by
    by_cases he : F.2.isEmpty = true
    · rw [if_pos he, List.isEmpty_iff.mp he]
      rw [show core [] = [] from rfl, List.append_nil]
    · rw [if_neg he, List.map_append, List.flatten_append]
      rw [show (([F.2 ++ ['.']]).map core).flatten = core F.2 from ?_]
      show core (F.2 ++ ['.']) ++ [] = core F.2
      rw [List.append_nil, core_append,
        core_cons_neg '.' [] (keepCore_of_term '.' rfl)]
      rw [show core ([] : List Char) = [] from rfl, List.append_nil]
  rw [hpush, hF]
  rw [sentenceFold_core]
  rw [show ((([], []) : List (List Char) × List Char).1.map core).flatten
    = [] from rfl]
  rw [show core (([], []) : List (List Char) × List Char).2 = [] from rfl]
  rw [List.nil_append, List.nil_append]
  rw [List.map_congr_left (fun s _ => core_trim s)]
  rw [flatten_core_filter_blank, core_splitTerm]

/-- Witness for C8 at 1000 and 1001 repetitions of `a`. -/
theorem audioTextBoundary_spec_witness :
    (generateAudioDecision (some (List.replicate 1000 'a')) true true true =
        AudioGenOutcome.accepted ∧
      (generateAudioDecision (some (List.replicate 1000 'a'))
          true true true).createsJobRow = true) ∧
    (generateAudioDecision (some (List.replicate 1001 'a')) true true true =
        AudioGenOutcome.rejected 400 ∧
      (generateAudioDecision (some (List.replicate 1001 'a'))
          true true true).createsJobRow = false) :=
  ⟨(audioTextBoundary_spec (List.replicate 1000 'a')).1
      (by rw [trim_replicate_a]; exact List.length_replicate 1000 'a'),
   (audioTextBoundary_spec (List.replicate 1001 'a')).2
      (by rw [trim_replicate_a, List.length_replicate]; omega)⟩

end MetaBackend
